import Mathlib

/-!
Verification of the EM demultiplexing core of scSplit
(`sc_split_maf_s_sparse.py`), shallowly embedded over the reals.

The Python program keeps one mutable `models` object holding the two
count matrices (`ref_bc_mtx`, `alt_bc_mtx`, shape V x C), the per-donor
minor-allele-frequency matrix `model_MAF` (V x K), the log-likelihood
matrix `lP_c_s` (C x K), the posterior matrix `P_s_c` (C x K) and the
assignment lists.  We embed that state as a structure over `Fin`-indexed
real matrices; cells are identified with their index `Fin C` (the
barcode labels of the data frame, in index order), donors with `Fin K`.
Floating-point numbers are modelled by real numbers.
-/

namespace ScSplit

open Finset

/-- The mutable state of the Python class `models`
(`sc_split_maf_s_sparse.py`, lines 17-49): count matrices, model minor
allele frequencies, log-likelihoods, posteriors and assignment lists. -/
structure ModelState (V C K : ℕ) where
  ref_bc_mtx : Fin V → Fin C → ℝ
  alt_bc_mtx : Fin V → Fin C → ℝ
  model_MAF : Fin V → Fin K → ℝ
  lP_c_s : Fin C → Fin K → ℝ
  P_s_c : Fin C → Fin K → ℝ
  assigned : Fin K → List (Fin C)

/-- The entry `[c, n]` of the matrix written into `self.lP_c_s` by the
first loop of `models.calculate_cell_likelihood` (lines 70-73):
`matcalc = alt.T.multiply(log2(MAF[:, n])).T + ref.T.multiply(log2(1 - MAF[:, n])).T`
summed over axis 0 (the SNV axis). -/
noncomputable def log_likelihood {V C K : ℕ} (s : ModelState V C K)
    (c : Fin C) (n : Fin K) : ℝ :=
  ∑ v : Fin V,
    (s.alt_bc_mtx v c * Real.logb 2 (s.model_MAF v n) +
      s.ref_bc_mtx v c * Real.logb 2 (1 - s.model_MAF v n))

/-- `models.calculate_cell_likelihood` (lines 61-80): the first loop
overwrites `lP_c_s` column by column with `log_likelihood`; the second
loop accumulates, for each donor `i`, the denominator
`denom += 2 ** (lP_c_s[:, j] - lP_c_s[:, i])` over `j` (reading the
`lP_c_s` just written) and overwrites `P_s_c[:, i]` with `1 / denom`. -/
noncomputable def calculate_cell_likelihood {V C K : ℕ} (s : ModelState V C K) :
    ModelState V C K :=
  { s with
    lP_c_s := log_likelihood s
    P_s_c := fun c i =>
      1 / (List.finRange K).foldl
        (fun denom j => denom + (2 : ℝ) ^ (log_likelihood s c j - log_likelihood s c i))
        0 }

/-- `models.calculate_model_MAF` (lines 52-58): overwrites `model_MAF`
with `(alt_bc_mtx.dot(P_s_c) + 1) / ((alt_bc_mtx + ref_bc_mtx).dot(P_s_c) + 2)`;
the `[v, n]` entry of a dot product is the sum over cells `c`. -/
noncomputable def calculate_model_MAF {V C K : ℕ} (s : ModelState V C K) :
    ModelState V C K :=
  { s with
    model_MAF := fun v n =>
      ((∑ c : Fin C, s.alt_bc_mtx v c * s.P_s_c c n) + 1) /
        ((∑ c : Fin C, (s.alt_bc_mtx v c + s.ref_bc_mtx v c) * s.P_s_c c n) + 2) }

open Classical in
/-- `models.assign_cells` (lines 83-90): for each donor `n`, the sorted
list of the barcodes `c` whose posterior `P_s_c[c, n]` is at least 0.9. -/
noncomputable def assign_cells {V C K : ℕ} (s : ModelState V C K) :
    ModelState V C K :=
  { s with
    assigned := fun n =>
      ((List.finRange C).filter fun c => decide ((0.9 : ℝ) ≤ s.P_s_c c n)).mergeSort
        (fun a b => decide (a ≤ b)) }

/-- `model.lP_c_s.sum().sum()` (line 109): the scalar total of the
log-likelihood matrix appended to the diagnostic trace each round. -/
noncomputable def sum_lP {V C K : ℕ} (s : ModelState V C K) : ℝ :=
  ∑ c : Fin C, ∑ n : Fin K, s.lP_c_s c n

/-- One round of the `while` loop of `run_model` (lines 101-109):
E-step (`calculate_cell_likelihood`) then M-step (`calculate_model_MAF`). -/
noncomputable def em_round {V C K : ℕ} (s : ModelState V C K) : ModelState V C K :=
  calculate_model_MAF (calculate_cell_likelihood s)

/-- The `while iterations < 15` loop of `run_model` (lines 97-109),
parameterised by the number of remaining rounds: each round runs the
E-step, then the M-step, then appends `sum_lP` of the resulting state to
the diagnostic trace.  Returns the final state and the trace in round
order. -/
noncomputable def em_iterations {V C K : ℕ} :
    ℕ → ModelState V C K → ModelState V C K × List ℝ
  | 0, s => (s, [])
  | Nat.succ m, s =>
    let s2 := calculate_model_MAF (calculate_cell_likelihood s)
    let rest := em_iterations m s2
    (rest.1, sum_lP s2 :: rest.2)

/-- `run_model` (lines 93-111), with the random initialisation
externalised: starting from an initialised state, run the fixed 15-round
EM loop, then `assign_cells`.  Returns the final state and the
diagnostic trace `sum_log_likelihood`. -/
noncomputable def run_model {V C K : ℕ} (s : ModelState V C K) :
    ModelState V C K × List ℝ :=
  (assign_cells (em_iterations 15 s).1, (em_iterations 15 s).2)

/-- An untyped matrix as handed to `models.__init__`: its dimensions and
an (integer) entry function, mirroring a scipy sparse count matrix. -/
structure RawMatrix where
  rows : ℕ
  cols : ℕ
  entry : ℕ → ℕ → ℤ

/-- `m.sum()` on a count matrix: the total of all entries. -/
def RawMatrix.total (m : RawMatrix) : ℤ :=
  ∑ v ∈ Finset.range m.rows, ∑ c ∈ Finset.range m.cols, m.entry v c

/-- The errors initialisation could signal: `invalidInput` is the error
the specification prescribes (the source never produces it);
`valueError` is the `ValueError` that `np.random.beta` raises on a
non-positive shape parameter, the one failure the constructor body can
actually propagate. -/
inductive InitError where
  | invalidInput
  | valueError
deriving DecidableEq

/-- The fields `models.__init__` (lines 18-49) sets: the stored inputs,
the zero-initialised `P_s_c` and `lP_c_s` of shape `len(barcodes) x num`,
`num` empty assignment lists, and `model_MAF[v, n] = 1 - beta_sim[n][v]`
from the Beta draws (randomness externalised as `beta_sim`). -/
structure InitState where
  ref_bc_mtx0 : RawMatrix
  alt_bc_mtx0 : RawMatrix
  all_POS : List ℕ
  barcodes : List ℕ
  num : ℕ
  P_s_c0 : ℕ → ℕ → ℝ
  lP_c_s0 : ℕ → ℕ → ℝ
  assigned0 : List (List ℕ)
  model_MAF0 : ℕ → ℕ → ℝ

/-- `models.__init__` (lines 18-49), returning `Except` so that a raised
error is representable.  The body contains no validation of shapes,
signs or `num` and raises nothing itself; its one failure path is the
loop `for n in range(num)` calling
`np.random.beta(self.ref_bc_mtx.sum(), self.alt_bc_mtx.sum(), ...)`
(line 48), which raises `ValueError` when a shape parameter is not
strictly positive.  So initialisation fails exactly when the loop runs
(`1 ≤ num`) and either count total is ≤ 0; otherwise it returns the
constructed state (randomness externalised as `beta_sim`). -/
noncomputable def models_init (ref_mtx alt_mtx : RawMatrix)
    (all_POS barcodes : List ℕ) (num : ℕ) (beta_sim : ℕ → ℕ → ℝ) :
    Except InitError InitState :=
  if 1 ≤ num ∧ (ref_mtx.total ≤ 0 ∨ alt_mtx.total ≤ 0) then
    Except.error InitError.valueError
  else
    Except.ok
      { ref_bc_mtx0 := ref_mtx
        alt_bc_mtx0 := alt_mtx
        all_POS := all_POS
        barcodes := barcodes
        num := num
        P_s_c0 := fun _ _ => 0
        lP_c_s0 := fun _ _ => 0
        assigned0 := List.replicate num []
        model_MAF0 := fun v n => 1 - beta_sim n v }

/-- A concrete state with 1 SNV, 1 cell and 1 donor: zero counts,
minor allele frequency 1/2, zero likelihood and posterior matrices. -/
noncomputable def sampleState : ModelState 1 1 1 where
  ref_bc_mtx := fun _ _ => 0
  alt_bc_mtx := fun _ _ => 0
  model_MAF := fun _ _ => 1 / 2
  lP_c_s := fun _ _ => 0
  P_s_c := fun _ _ => 0
  assigned := fun _ => []

/-- The sample state with a different minor-allele-frequency matrix
(all other fields shared). -/
noncomputable def sampleStateAlt : ModelState 1 1 1 :=
  { sampleState with model_MAF := fun _ _ => 1 / 4 }

/-- A raw 1 x 1 all-ones count matrix (total 1, so the Beta shape
parameter it feeds is strictly positive). -/
noncomputable def rawRefOneCol : RawMatrix :=
  { rows := 1, cols := 1, entry := fun _ _ => 1 }

/-- A raw 1 x 2 all-ones count matrix: one column more than
`rawRefOneCol`, with total 2. -/
noncomputable def rawAltTwoCols : RawMatrix :=
  { rows := 1, cols := 2, entry := fun _ _ => 1 }

/-- Folding `acc + g j` over a list starting at `z` totals `z` plus the
sum of `g` over the list: the loop-accumulated denominator of the
posterior step is a finite sum. -/
lemma foldl_add_eq_sum {α : Type} (g : α → ℝ) : ∀ (l : List α) (z : ℝ),
    l.foldl (fun acc j => acc + g j) z = z + (l.map g).sum
  | [], z => by simp
  | a :: t, z => by
    simp only [List.foldl_cons, List.map_cons, List.sum_cons]
    rw [foldl_add_eq_sum g t (z + g a)]
    ring

/-- The posterior the E-step writes, with its loop-accumulated
denominator rewritten as a finite sum over the donors. -/
lemma P_s_c_calc {V C K : ℕ} (s : ModelState V C K) (c : Fin C) (i : Fin K) :
    (calculate_cell_likelihood s).P_s_c c i =
      1 / ∑ j : Fin K, (2 : ℝ) ^ (log_likelihood s c j - log_likelihood s c i) := by
  show 1 / (List.finRange K).foldl _ 0 = _
  rw [foldl_add_eq_sum, zero_add, Fin.sum_univ_def]

/-- Softmax closed form of the posterior: `2 ^ lP[c,i]` over the total
`∑ j, 2 ^ lP[c,j]`. -/
lemma P_s_c_closed_form {V C K : ℕ} (s : ModelState V C K) (c : Fin C) (i : Fin K) :
    (calculate_cell_likelihood s).P_s_c c i =
      (2 : ℝ) ^ log_likelihood s c i / ∑ j : Fin K, (2 : ℝ) ^ log_likelihood s c j := by
  rw [P_s_c_calc]
  have h2 : ∀ j : Fin K, (2 : ℝ) ^ (log_likelihood s c j - log_likelihood s c i)
      = (2 : ℝ) ^ log_likelihood s c j / (2 : ℝ) ^ log_likelihood s c i :=
    fun j => Real.rpow_sub two_pos _ _
  simp only [h2]
  rw [← Finset.sum_div, one_div_div]

/-- The softmax total is positive as soon as one donor exists. -/
lemma sum_rpow_pos {V C K : ℕ} (s : ModelState V C K) (c : Fin C) (i : Fin K) :
    0 < ∑ j : Fin K, (2 : ℝ) ^ log_likelihood s c j :=
  Finset.sum_pos (fun _ _ => Real.rpow_pos_of_pos two_pos _) ⟨i, Finset.mem_univ i⟩

/-- Every posterior entry the E-step writes is positive. -/
lemma P_s_c_pos {V C K : ℕ} (s : ModelState V C K) (c : Fin C) (i : Fin K) :
    0 < (calculate_cell_likelihood s).P_s_c c i := by
  rw [P_s_c_closed_form]
  exact div_pos (Real.rpow_pos_of_pos two_pos _) (sum_rpow_pos s c i)

/-- Every posterior row the E-step writes sums to one. -/
lemma P_s_c_row_sum {V C K : ℕ} (s : ModelState V C K) (hK : 0 < K) (c : Fin C) :
    ∑ i : Fin K, (calculate_cell_likelihood s).P_s_c c i = 1 := by
  obtain ⟨i0⟩ := Fin.pos_iff_nonempty.mp hK
  calc ∑ i : Fin K, (calculate_cell_likelihood s).P_s_c c i
      = ∑ i : Fin K, (2 : ℝ) ^ log_likelihood s c i /
          ∑ j : Fin K, (2 : ℝ) ^ log_likelihood s c j :=
        Finset.sum_congr rfl fun i _ => P_s_c_closed_form s c i
    _ = (∑ i : Fin K, (2 : ℝ) ^ log_likelihood s c i) /
          ∑ j : Fin K, (2 : ℝ) ^ log_likelihood s c j := by
        rw [Finset.sum_div]
    _ = 1 := div_self (ne_of_gt (sum_rpow_pos s c i0))

/-- The M-step leaves the log-likelihood matrix untouched. -/
lemma calculate_model_MAF_lP {V C K : ℕ} (s : ModelState V C K) :
    (calculate_model_MAF s).lP_c_s = s.lP_c_s := rfl

/-- The M-step leaves the posterior matrix untouched. -/
lemma calculate_model_MAF_P {V C K : ℕ} (s : ModelState V C K) :
    (calculate_model_MAF s).P_s_c = s.P_s_c := rfl

/-- Membership in a donor's assignment list is exactly the 0.9
posterior threshold. -/
lemma mem_assigned_iff {V C K : ℕ} (s : ModelState V C K) (n : Fin K) (c : Fin C) :
    c ∈ (assign_cells s).assigned n ↔ (0.9 : ℝ) ≤ s.P_s_c c n := by
  show c ∈ List.mergeSort _ _ ↔ _
  rw [List.mem_mergeSort, List.mem_filter]
  simp [List.mem_finRange]

/-- Every donor's assignment list is sorted. -/
lemma assigned_sorted {V C K : ℕ} (s : ModelState V C K) (n : Fin K) :
    ((assign_cells s).assigned n).Sorted (· ≤ ·) :=
  List.sorted_mergeSort' _

/-- C1: after `calculate_cell_likelihood`, for every cell `c` and donor
`k`, the log-likelihood entry equals the sum over all SNV positions `v`
of `AltCount[v,c] * log2 (MAF[v,k]) + RefCount[v,c] * log2 (1 - MAF[v,k])`,
computed from the current `model_MAF`, whose entries all lie strictly
between 0 and 1. -/
theorem estep_log_likelihood {V C K : ℕ} (s : ModelState V C K)
    (hMAF : ∀ v n, 0 < s.model_MAF v n ∧ s.model_MAF v n < 1)
    (c : Fin C) (k : Fin K) :
    (calculate_cell_likelihood s).lP_c_s c k =
      ∑ v : Fin V,
        (s.alt_bc_mtx v c * Real.logb 2 (s.model_MAF v k) +
          s.ref_bc_mtx v c * Real.logb 2 (1 - s.model_MAF v k)) := rfl

/-- Witness for C1: the sample state satisfies the frequency bounds and
the log-likelihood identity at cell 0, donor 0. -/
theorem estep_log_likelihood_witness :
    (∀ v n, 0 < sampleState.model_MAF v n ∧ sampleState.model_MAF v n < 1) ∧
    (calculate_cell_likelihood sampleState).lP_c_s 0 0 =
      ∑ v : Fin 1,
        (sampleState.alt_bc_mtx v 0 * Real.logb 2 (sampleState.model_MAF v 0) +
          sampleState.ref_bc_mtx v 0 * Real.logb 2 (1 - sampleState.model_MAF v 0)) :=
  ⟨fun v n => by constructor <;> norm_num [sampleState],
    estep_log_likelihood sampleState
      (fun v n => by constructor <;> norm_num [sampleState]) 0 0⟩

/-- C2: after `calculate_cell_likelihood`, for every cell `c` and donor
`i`, the posterior entry equals one over the sum over donors `j` of
`2 ^ (lP[c,j] - lP[c,i])`, where `lP` is the log-likelihood matrix the
same E-step just wrote. -/
theorem estep_posterior {V C K : ℕ} (s : ModelState V C K) (c : Fin C) (i : Fin K) :
    (calculate_cell_likelihood s).P_s_c c i =
      1 / ∑ j : Fin K,
        (2 : ℝ) ^ ((calculate_cell_likelihood s).lP_c_s c j -
          (calculate_cell_likelihood s).lP_c_s c i) :=
  P_s_c_calc s c i

/-- C3: the M-step overwrites every `model_MAF` entry with
`(Σ_c alt * P + 1) / (Σ_c (alt + ref) * P + 2)` computed from the
current posterior, and the result does not depend on the previous
`model_MAF`: two states agreeing on the counts and the posterior are
sent to the same new frequency matrix. -/
theorem mstep_model_MAF {V C K : ℕ} (s t : ModelState V C K)
    (halt : s.alt_bc_mtx = t.alt_bc_mtx) (href : s.ref_bc_mtx = t.ref_bc_mtx)
    (hP : s.P_s_c = t.P_s_c) (v : Fin V) (k : Fin K) :
    (calculate_model_MAF s).model_MAF v k =
      ((∑ c : Fin C, s.alt_bc_mtx v c * s.P_s_c c k) + 1) /
        ((∑ c : Fin C, (s.alt_bc_mtx v c + s.ref_bc_mtx v c) * s.P_s_c c k) + 2) ∧
    (calculate_model_MAF s).model_MAF = (calculate_model_MAF t).model_MAF := by
  refine ⟨rfl, ?_⟩
  simp only [calculate_model_MAF, halt, href, hP]

/-- Witness for C3: the sample state and its variant share counts and
posterior but differ in `model_MAF`, and the M-step agrees on them. -/
theorem mstep_model_MAF_witness :
    (calculate_model_MAF sampleState).model_MAF 0 0 =
      ((∑ c : Fin 1, sampleState.alt_bc_mtx 0 c * sampleState.P_s_c c 0) + 1) /
        ((∑ c : Fin 1,
            (sampleState.alt_bc_mtx 0 c + sampleState.ref_bc_mtx 0 c) *
              sampleState.P_s_c c 0) + 2) ∧
    (calculate_model_MAF sampleState).model_MAF =
      (calculate_model_MAF sampleStateAlt).model_MAF :=
  mstep_model_MAF sampleState sampleStateAlt rfl rfl rfl 0 0

/-- C4: after every E-step, every posterior row sums to exactly 1 in
the real-number model, for any log-likelihood values, as soon as at
least one donor exists. -/
theorem estep_posterior_row_sum {V C K : ℕ} (s : ModelState V C K)
    (hK : 0 < K) (c : Fin C) :
    ∑ k : Fin K, (calculate_cell_likelihood s).P_s_c c k = 1 :=
  P_s_c_row_sum s hK c

/-- Witness for C4 at the sample state. -/
theorem estep_posterior_row_sum_witness :
    0 < 1 ∧ ∑ k : Fin 1, (calculate_cell_likelihood sampleState).P_s_c 0 k = 1 :=
  ⟨Nat.one_pos, estep_posterior_row_sum sampleState Nat.one_pos 0⟩

/-- C5: after the M-step, every `model_MAF` entry lies strictly between
0 and 1, provided both count matrices and the posterior are entrywise
non-negative. -/
theorem mstep_MAF_open_interval {V C K : ℕ} (s : ModelState V C K)
    (href : ∀ v c, 0 ≤ s.ref_bc_mtx v c) (halt : ∀ v c, 0 ≤ s.alt_bc_mtx v c)
    (hP : ∀ c k, 0 ≤ s.P_s_c c k) (v : Fin V) (k : Fin K) :
    0 < (calculate_model_MAF s).model_MAF v k ∧
      (calculate_model_MAF s).model_MAF v k < 1 := by
  have hA : 0 ≤ ∑ c : Fin C, s.alt_bc_mtx v c * s.P_s_c c k :=
    Finset.sum_nonneg fun c _ => mul_nonneg (halt v c) (hP c k)
  have hR : 0 ≤ ∑ c : Fin C, s.ref_bc_mtx v c * s.P_s_c c k :=
    Finset.sum_nonneg fun c _ => mul_nonneg (href v c) (hP c k)
  have hsplit : ∑ c : Fin C, (s.alt_bc_mtx v c + s.ref_bc_mtx v c) * s.P_s_c c k
      = (∑ c : Fin C, s.alt_bc_mtx v c * s.P_s_c c k) +
        ∑ c : Fin C, s.ref_bc_mtx v c * s.P_s_c c k := by
    rw [← Finset.sum_add_distrib]
    exact Finset.sum_congr rfl fun c _ => by ring
  have heq : (calculate_model_MAF s).model_MAF v k =
      ((∑ c : Fin C, s.alt_bc_mtx v c * s.P_s_c c k) + 1) /
        ((∑ c : Fin C, (s.alt_bc_mtx v c + s.ref_bc_mtx v c) * s.P_s_c c k) + 2) := rfl
  have hden : 0 < (∑ c : Fin C, (s.alt_bc_mtx v c + s.ref_bc_mtx v c) * s.P_s_c c k) + 2 := by
    rw [hsplit]; linarith
  rw [heq]
  refine ⟨div_pos (by linarith) hden, (div_lt_one hden).mpr ?_⟩
  rw [hsplit]; linarith

/-- Witness for C5 at the sample state, whose counts and posterior are
all zero and hence non-negative. -/
theorem mstep_MAF_open_interval_witness :
    0 < (calculate_model_MAF sampleState).model_MAF 0 0 ∧
      (calculate_model_MAF sampleState).model_MAF 0 0 < 1 :=
  mstep_MAF_open_interval sampleState
    (fun v c => by norm_num [sampleState]) (fun v c => by norm_num [sampleState])
    (fun c k => by norm_num [sampleState]) 0 0

/-- Counterexample to C6: the reference and alternate matrices disagree
in their column counts (and both have strictly positive totals, so the
Beta draw succeeds), yet `models_init` does not return the
`InvalidInput` error — the source constructor performs no shape
validation, so this mismatch cannot fail before the iterations start. -/
theorem models_init_no_shape_check :
    rawRefOneCol.cols ≠ rawAltTwoCols.cols ∧
      models_init rawRefOneCol rawAltTwoCols [101] [0] 2 (fun _ _ => 1 / 2) ≠
        Except.error InitError.invalidInput := by
  have hcond : ¬(1 ≤ 2 ∧ (rawRefOneCol.total ≤ 0 ∨ rawAltTwoCols.total ≤ 0)) := by
    simp [RawMatrix.total, rawRefOneCol, rawAltTwoCols]
  refine ⟨by decide, ?_⟩
  intro h
  rw [models_init, if_neg hcond] at h
  exact Except.noConfusion h

/-- C6 amended: `models.__init__` never signals `InvalidInput`, and it
performs no validation of shapes, signs or donor count: for inputs the
specification calls invalid — disagreeing shapes, a negative count
entry, or fewer than one donor — it still succeeds and returns the
constructed state, provided only that the Beta draw itself does not
raise, i.e. either `num = 0` (the drawing loop never runs) or both
count totals are strictly positive.  (When `1 ≤ num` and a total is
≤ 0, `np.random.beta` raises numpy's `ValueError` — not `InvalidInput` —
and that failure also hits inputs the specification calls valid, such
as matching all-zero count matrices.) -/
theorem models_init_accepts_invalid (ref_mtx alt_mtx : RawMatrix)
    (all_POS barcodes : List ℕ) (num : ℕ) (beta_sim : ℕ → ℕ → ℝ)
    (hbad : ref_mtx.rows ≠ alt_mtx.rows ∨ ref_mtx.cols ≠ alt_mtx.cols ∨
      (∃ v c, ref_mtx.entry v c < 0 ∨ alt_mtx.entry v c < 0) ∨ num < 1)
    (hbeta : num = 0 ∨ (0 < ref_mtx.total ∧ 0 < alt_mtx.total)) :
    models_init ref_mtx alt_mtx all_POS barcodes num beta_sim ≠
        Except.error InitError.invalidInput ∧
      ∃ st, models_init ref_mtx alt_mtx all_POS barcodes num beta_sim =
        Except.ok st := by
  have hcond : ¬(1 ≤ num ∧ (ref_mtx.total ≤ 0 ∨ alt_mtx.total ≤ 0)) := by
    rcases hbeta with h0 | ⟨hr, ha⟩
    · exact fun h => by omega
    · rintro ⟨-, h | h⟩ <;> omega
  rw [models_init, if_neg hcond]
  exact ⟨fun h => Except.noConfusion h, _, rfl⟩

/-- Witness for the amended C6 at the concrete mismatched-shape,
positive-total input. -/
theorem models_init_accepts_invalid_witness :
    models_init rawRefOneCol rawAltTwoCols [101] [0] 2 (fun _ _ => 1 / 2) ≠
        Except.error InitError.invalidInput ∧
      ∃ st, models_init rawRefOneCol rawAltTwoCols [101] [0] 2 (fun _ _ => 1 / 2) =
        Except.ok st :=
  models_init_accepts_invalid rawRefOneCol rawAltTwoCols [101] [0] 2 (fun _ _ => 1 / 2)
    (Or.inr (Or.inl (by decide)))
    (Or.inr (by constructor <;> simp [RawMatrix.total, rawRefOneCol, rawAltTwoCols]))

/-- The final state of the iteration loop is the 15-fold composite of
one EM round. -/
lemma em_iterations_fst {V C K : ℕ} :
    ∀ (m : ℕ) (s : ModelState V C K), (em_iterations m s).1 = em_round^[m] s
  | 0, _ => rfl
  | Nat.succ m, s => by
    show (em_iterations m (em_round s)).1 = _
    rw [em_iterations_fst m (em_round s), ← Function.iterate_succ_apply]

/-- The diagnostic trace gains exactly one entry per round. -/
lemma em_iterations_length {V C K : ℕ} :
    ∀ (m : ℕ) (s : ModelState V C K), (em_iterations m s).2.length = m
  | 0, _ => rfl
  | Nat.succ m, s => by
    show (sum_lP (em_round s) :: (em_iterations m (em_round s)).2).length = m + 1
    rw [List.length_cons, em_iterations_length m]

/-- Entry `t` of the trace is the log-likelihood total of the E-step
run on the state left by the first `t` rounds. -/
lemma em_iterations_trace {V C K : ℕ} :
    ∀ (m t : ℕ) (s : ModelState V C K), t < m →
      (em_iterations m s).2[t]? =
        some (sum_lP (calculate_cell_likelihood (em_round^[t] s)))
  | 0, t, _, ht => absurd ht (Nat.not_lt_zero t)
  | Nat.succ m, 0, s, _ => by
    show (sum_lP (em_round s) :: (em_iterations m (em_round s)).2)[0]? = _
    rw [List.getElem?_cons_zero]
    rfl
  | Nat.succ m, Nat.succ t, s, ht => by
    show (sum_lP (em_round s) :: (em_iterations m (em_round s)).2)[t + 1]? = _
    rw [List.getElem?_cons_succ,
      em_iterations_trace m t (em_round s) (Nat.lt_of_succ_lt_succ ht),
      ← Function.iterate_succ_apply]

/-- C7: `run_model` performs exactly 15 EM rounds with no early exit
(the trace has length 15 for every input); each round is the E-step
followed by the M-step (`em_round`); entry `t` of the trace (0-based)
is the scalar total of the log-likelihood matrix the E-step computes
from the frequencies produced by the preceding `t` rounds; and the
final state is `assign_cells` of the 15-round composite. -/
theorem run_model_fixed_iterations {V C K : ℕ} (s : ModelState V C K)
    (t : ℕ) (ht : t < 15) :
    (run_model s).2.length = 15 ∧
    (run_model s).2[t]? = some (sum_lP (calculate_cell_likelihood (em_round^[t] s))) ∧
    (run_model s).1 = assign_cells (em_round^[15] s) := by
  refine ⟨em_iterations_length 15 s, em_iterations_trace 15 t s ht, ?_⟩
  show assign_cells (em_iterations 15 s).1 = _
  rw [em_iterations_fst]

/-- Witness for C7 at the sample state and trace position 14. -/
theorem run_model_fixed_iterations_witness :
    (run_model sampleState).2.length = 15 ∧
    (run_model sampleState).2[14]? =
      some (sum_lP (calculate_cell_likelihood (em_round^[14] sampleState))) ∧
    (run_model sampleState).1 = assign_cells (em_round^[15] sampleState) :=
  run_model_fixed_iterations sampleState 14 (by norm_num)

/-- C8: a cell whose alternate and reference counts vanish at every SNV
gets the uniform posterior `1 / K` at every donor after any E-step, for
any current `model_MAF` with entries strictly between 0 and 1. -/
theorem estep_zero_count_uniform {V C K : ℕ} (s : ModelState V C K) (c : Fin C)
    (hzero : ∀ v, s.alt_bc_mtx v c = 0 ∧ s.ref_bc_mtx v c = 0)
    (hMAF : ∀ v n, 0 < s.model_MAF v n ∧ s.model_MAF v n < 1) (k : Fin K) :
    (calculate_cell_likelihood s).P_s_c c k = 1 / (K : ℝ) := by
  have hl : ∀ n : Fin K, log_likelihood s c n = 0 := fun n =>
    Finset.sum_eq_zero fun v _ => by rw [(hzero v).1, (hzero v).2]; ring
  rw [P_s_c_calc]
  simp [hl, Real.rpow_zero, Finset.sum_const, Finset.card_univ]

/-- Witness for C8: the sample state's only cell has zero counts and
frequency 1/2, and its posterior is 1/1. -/
theorem estep_zero_count_uniform_witness :
    (calculate_cell_likelihood sampleState).P_s_c 0 0 = 1 / ((1 : ℕ) : ℝ) :=
  estep_zero_count_uniform sampleState 0
    (fun v => by constructor <;> norm_num [sampleState])
    (fun v n => by constructor <;> norm_num [sampleState]) 0

/-- C9: after an EM round (so in particular at the final posterior the
program hands to `assign_cells`), each donor's assignment list is the
sorted list of exactly the barcodes whose posterior reaches 0.9, and —
the posterior rows summing to 1 with positive entries — the lists are
pairwise disjoint: no barcode appears in two of them, and barcodes below
the threshold everywhere appear in none. -/
theorem assign_cells_threshold_disjoint {V C K : ℕ} (s : ModelState V C K) :
    (∀ n : Fin K,
      ((assign_cells (em_round s)).assigned n).Sorted (· ≤ ·) ∧
        ∀ c : Fin C, c ∈ (assign_cells (em_round s)).assigned n ↔
          (0.9 : ℝ) ≤ (em_round s).P_s_c c n) ∧
    ∀ n m : Fin K, n ≠ m → ∀ c : Fin C,
      c ∈ (assign_cells (em_round s)).assigned n →
        c ∈ (assign_cells (em_round s)).assigned m → False := by
  refine ⟨fun n => ⟨assigned_sorted _ n, fun c => mem_assigned_iff _ n c⟩, ?_⟩
  intro n m hnm c hcn hcm
  rw [mem_assigned_iff] at hcn hcm
  have hPfix : (em_round s).P_s_c = (calculate_cell_likelihood s).P_s_c :=
    calculate_model_MAF_P _
  rw [hPfix] at hcn hcm
  have hsum : ∑ k : Fin K, (calculate_cell_likelihood s).P_s_c c k = 1 :=
    P_s_c_row_sum s n.pos c
  have hpair : (calculate_cell_likelihood s).P_s_c c n +
      (calculate_cell_likelihood s).P_s_c c m ≤ 1 := by
    rw [← hsum, ← Finset.sum_pair hnm]
    exact Finset.sum_le_sum_of_subset_of_nonneg (Finset.subset_univ _)
      (fun j _ _ => le_of_lt (P_s_c_pos s c j))
  linarith

/-- C10: with a single donor, every posterior entry after any E-step is
exactly 1 (the denominator only holds the `j = i` term `2 ^ 0`), so
`assign_cells` puts every barcode in the single donor's list. -/
theorem single_donor_all_assigned {V C : ℕ} (s : ModelState V C 1)
    (c : Fin C) (k : Fin 1) :
    (calculate_cell_likelihood s).P_s_c c k = 1 ∧
      c ∈ (assign_cells (calculate_cell_likelihood s)).assigned k := by
  have hone : (calculate_cell_likelihood s).P_s_c c k = 1 := by
    obtain rfl : k = 0 := Fin.eq_zero k
    rw [P_s_c_calc, Fin.sum_univ_one]
    simp [sub_self, Real.rpow_zero]
  exact ⟨hone, (mem_assigned_iff _ k c).mpr (by rw [hone]; norm_num)⟩

end ScSplit
